import Mathlib

/-!
Verification of the collaborative document server (C++ sources under
`server/src` and `v2/server/src`) against its natural-language
specification.

The development shallowly embeds the relevant C++ code:

* wire bytes are `Nat` values; every read of a `uint8_t` is performed
  modulo 256, and every arithmetic step that the C code performs on a
  `uint32_t` is performed modulo `2 ^ 32`;
* buffers (`uint8_t*` with a length) become `List Nat`;
* fallible C functions that signal failure by returning `0` bytes
  consumed, a null pointer, or `false` become `Option`-valued functions;
* the global peer registry (an intrusive singly-linked list) becomes a
  `List Peer`, with the list head playing the role of `g_peers`;
* the external CRDT engine (the yrs library, which is not part of this
  repository) is kept abstract as a structure of operations, and where a
  concrete instance is needed it is instantiated by a small model that
  follows the specification of the engine interface.
-/

/- ### Codec: protocol.cpp -/

/-- `encode_varuint` from `server/src/protocol.cpp` (lines 8-18): LEB128
encoding, seven value bits per byte, high bit is the continuation flag.
`value & 0x7F` is `value % 128`, `| 0x80` adds 128 (the low seven bits
are already below 128), and `value >>= 7` is division by 128. -/
def encode_varuint (value : Nat) : List Nat :=
  if h : 0x80 ≤ value then
    (value % 0x80 + 0x80) :: encode_varuint (value / 0x80)
  else
    [value % 0x80]
termination_by value
decreasing_by exact Nat.div_lt_self (by omega) (by omega)

/-- The loop of `decode_varuint` from `server/src/protocol.cpp`
(lines 22-47).  Arguments mirror the C locals: position so far, the
`uint32_t` accumulator `result` (kept below `2 ^ 32` by reducing every
bitwise-or operand modulo `2 ^ 32`, as the C `uint32_t` shift does), and
`shift`.  Running out of bytes while the continuation flag is set is the
"incomplete varint" error; a continuation flag that would push `shift`
to 32 or beyond is the overflow error.  Both errors return `none`
(the C function returns `0` bytes consumed). -/
def decode_varuint_go : List Nat → Nat → Nat → Nat → Option (Nat × Nat)
  | [], _, _, _ => none
  | b :: rest, pos, result, shift =>
    let byte := b % 256
    let result1 := result ||| ((byte % 0x80) <<< shift % 2 ^ 32)
    if byte < 0x80 then
      some (result1, pos + 1)
    else if 32 ≤ shift + 7 then
      none
    else
      decode_varuint_go rest (pos + 1) result1 (shift + 7)

/-- `decode_varuint` from `server/src/protocol.cpp` (lines 22-47):
returns the decoded value and the number of bytes consumed, or `none`
on error (the C function reports errors by returning `0` consumed
bytes and leaving the out-parameter unset). -/
def decode_varuint (data : List Nat) : Option (Nat × Nat) :=
  decode_varuint_go data 0 0 0

/-- Modelled from the spec: the mathematical value of a LEB128 byte
string (the spec describes the varuint as "seven value bits per byte,
little-endian by order of appearance; the high bit of each byte is a
continuation flag").  This is the ideal decoder, with no 32-bit
truncation and no shift limit; it is used to compare the behaviour of
the implemented `decode_varuint` with the value the bytes denote. -/
def varuint_ideal_go : List Nat → Nat → Nat → Nat → Option (Nat × Nat)
  | [], _, _, _ => none
  | b :: rest, pos, result, shift =>
    let byte := b % 256
    let result1 := result + (byte % 0x80) * 2 ^ shift
    if byte < 0x80 then
      some (result1, pos + 1)
    else
      varuint_ideal_go rest (pos + 1) result1 (shift + 7)

/-- Modelled from the spec: top level of the ideal LEB128 decoder. -/
def varuint_ideal (data : List Nat) : Option (Nat × Nat) :=
  varuint_ideal_go data 0 0 0

/-- Number of significant bits of `n` (`Nat.size`); the quantity the
spec calls `bits_required(n)`. -/
def bits_required (n : Nat) : Nat := Nat.size n

/- ### Helper lemmas about the varuint codec -/

/-- A bitwise or whose right operand only has bits at or above position
`s` and whose left operand lies below `2 ^ s` is an addition. -/
theorem lor_eq_add_of_lt (s : Nat) :
    ∀ r x : Nat, r < 2 ^ s → r ||| x * 2 ^ s = r + x * 2 ^ s := by
  induction s with
  | zero =>
    intro r x hr
    interval_cases r
    simp [Nat.zero_or]
  | succ s ih =>
    intro r x hr
    have hbit : Nat.bit r.bodd r.div2 = r := Nat.bit_decomp r
    have hx : Nat.bit false (x * 2 ^ s) = x * 2 ^ (s + 1) := by
      rw [Nat.bit_val]
      simp only [Bool.toNat_false, Nat.add_zero]
      ring
    have hx2 : x * 2 ^ (s + 1) = 2 * (x * 2 ^ s) := by ring
    have hdiv : r.div2 < 2 ^ s := by
      rw [Nat.div2_val]
      omega
    calc r ||| x * 2 ^ (s + 1)
        = Nat.bit r.bodd r.div2 ||| Nat.bit false (x * 2 ^ s) := by rw [hbit, hx]
      _ = Nat.bit (r.bodd || false) (r.div2 ||| x * 2 ^ s) := Nat.lor_bit ..
      _ = Nat.bit r.bodd (r.div2 + x * 2 ^ s) := by rw [Bool.or_false, ih _ _ hdiv]
      _ = r + x * 2 ^ (s + 1) := by
          rw [Nat.bit_val] at hbit ⊢
          omega

/-- Unfolding equation for `encode_varuint` below the continuation
threshold. -/
@[simp]
theorem encode_varuint_low {value : Nat} (h : value < 0x80) :
    encode_varuint value = [value] := by
  rw [encode_varuint]
  simp [Nat.not_le.mpr h, Nat.mod_eq_of_lt h]

/-- Unfolding equation for `encode_varuint` at or above the
continuation threshold. -/
theorem encode_varuint_high {value : Nat} (h : 0x80 ≤ value) :
    encode_varuint value
      = (value % 0x80 + 0x80) :: encode_varuint (value / 0x80) := by
  rw [encode_varuint]
  simp [h]

example : encode_varuint 0 = [0] := by simp
example : encode_varuint 127 = [0x7F] := by simp
example : encode_varuint 128 = [0x80, 0x01] := by
  rw [encode_varuint_high (by norm_num)]
  norm_num
example : encode_varuint 300 = [0xAC, 0x02] := by
  rw [encode_varuint_high (by norm_num)]
  norm_num
example : decode_varuint [0xAC, 0x02] = some (300, 2) := by decide
example : decode_varuint [0x80] = none := by decide
example : decode_varuint [0x80, 0x80, 0x80, 0x80, 0x80, 0x01] = none := by decide
example : decode_varuint [0x80, 0x80, 0x80, 0x80, 0x10] = some (0, 5) := by decide
example : varuint_ideal [0x80, 0x80, 0x80, 0x80, 0x10] = some (2 ^ 32, 5) := by decide

/-- The truncating accumulator step of the C decoder agrees with the
ideal accumulator step modulo `2 ^ 32`, for shifts up to 28 (the
largest shift the decoder reaches). -/
theorem lor_step_eq_mod {mr c s : Nat} (hmr : mr < 2 ^ s) (hs : s ≤ 28)
    (_hc : c < 128) :
    mr ||| c * 2 ^ s % 2 ^ 32 = (mr + c * 2 ^ s) % 2 ^ 32 := by
  have hsplit : (2 : Nat) ^ 32 = 2 ^ (32 - s) * 2 ^ s := by
    rw [← pow_add]
    congr 1
    omega
  have h1 : c * 2 ^ s % 2 ^ 32 = c % 2 ^ (32 - s) * 2 ^ s := by
    rw [hsplit, Nat.mul_mod_mul_right]
  rw [h1, lor_eq_add_of_lt s mr (c % 2 ^ (32 - s)) hmr]
  have h2 := Nat.div_add_mod c (2 ^ (32 - s))
  have h3 : c * 2 ^ s
      = c / 2 ^ (32 - s) * (2 ^ (32 - s) * 2 ^ s) + c % 2 ^ (32 - s) * 2 ^ s := by
    conv_lhs => rw [← h2]
    ring
  rw [h3, ← hsplit]
  have hrr : c % 2 ^ (32 - s) < 2 ^ (32 - s) := Nat.mod_lt _ (by positivity)
  have hlt : mr + c % 2 ^ (32 - s) * 2 ^ s < 2 ^ 32 :=
    calc mr + c % 2 ^ (32 - s) * 2 ^ s
        < 2 ^ s + c % 2 ^ (32 - s) * 2 ^ s := by omega
      _ = (c % 2 ^ (32 - s) + 1) * 2 ^ s := by ring
      _ ≤ 2 ^ (32 - s) * 2 ^ s := by
          have : c % 2 ^ (32 - s) + 1 ≤ 2 ^ (32 - s) := hrr
          exact Nat.mul_le_mul_right _ this
      _ = 2 ^ 32 := hsplit.symm
  rw [show mr + (c / 2 ^ (32 - s) * 2 ^ 32 + c % 2 ^ (32 - s) * 2 ^ s)
        = mr + c % 2 ^ (32 - s) * 2 ^ s + c / 2 ^ (32 - s) * 2 ^ 32 by ring,
      Nat.add_mul_mod_self_right, Nat.mod_eq_of_lt hlt]

/-- The ideal decoder consumes at least one byte. -/
theorem varuint_ideal_go_lt :
    ∀ (data : List Nat) (pos r s v k : Nat),
      varuint_ideal_go data pos r s = some (v, k) → pos < k := by
  intro data
  induction data with
  | nil => intro pos r s v k h; exact absurd h (by simp [varuint_ideal_go])
  | cons b rest ih =>
    intro pos r s v k h
    simp only [varuint_ideal_go] at h
    by_cases hb : b % 256 < 0x80
    · rw [if_pos hb] at h
      have : pos + 1 = k := congrArg Prod.snd (Option.some.injEq _ _ |>.mp h)
      omega
    · rw [if_neg hb] at h
      have := ih (pos + 1) _ _ v k h
      omega

/-- The implemented decoder is the ideal LEB128 decoder truncated to 32
bits: it succeeds exactly when the ideal varint terminates within five
bytes, in which case it returns the ideal value reduced modulo
`2 ^ 32`; a varint that needs a sixth byte, or runs out of input, is an
error. -/
theorem decode_varuint_go_eq_ideal :
    ∀ (data : List Nat) (pos mr j : Nat), j ≤ 4 → mr < 2 ^ (7 * j) →
      decode_varuint_go data pos mr (7 * j)
        = match varuint_ideal_go data pos mr (7 * j) with
          | some (v, k) => if k ≤ pos + (5 - j) then some (v % 2 ^ 32, k) else none
          | none => none := by
  intro data
  induction data with
  | nil => intro pos mr j hj hmr; rfl
  | cons b rest ih =>
    intro pos mr j hj hmr
    have hc : b % 256 % 0x80 < 128 := Nat.mod_lt _ (by norm_num)
    by_cases hb : b % 256 < 0x80
    · simp only [decode_varuint_go, varuint_ideal_go, if_pos hb]
      have hk : pos + 1 ≤ pos + (5 - j) := by omega
      rw [if_pos hk, Nat.shiftLeft_eq,
          lor_step_eq_mod hmr (by omega) hc]
    · by_cases hj4 : j = 4
      · subst hj4
        simp only [decode_varuint_go, varuint_ideal_go, if_neg hb,
          show (32 ≤ 7 * 4 + 7) = True by simp, if_true]
        rcases hideal : varuint_ideal_go rest (pos + 1)
            (mr + b % 256 % 0x80 * 2 ^ (7 * 4)) (7 * 4 + 7) with _ | ⟨v, k⟩
        · rfl
        · have hk := varuint_ideal_go_lt rest (pos + 1) _ _ v k hideal
          dsimp only
          rw [if_neg (by omega)]
      · have hj3 : j ≤ 3 := by omega
        have hnot : ¬ 32 ≤ 7 * j + 7 := by omega
        simp only [decode_varuint_go, varuint_ideal_go, if_neg hb, if_neg hnot]
        have hsmall : b % 256 % 0x80 * 2 ^ (7 * j) < 2 ^ 32 := by
          calc b % 256 % 0x80 * 2 ^ (7 * j) < 128 * 2 ^ (7 * j) :=
                mul_lt_mul_of_pos_right hc (by positivity)
            _ = 2 ^ (7 * j + 7) := by rw [pow_add]; ring
            _ ≤ 2 ^ 32 := Nat.pow_le_pow_right (by norm_num) (by omega)
        have hstep : mr ||| (b % 256 % 0x80) <<< (7 * j) % 2 ^ 32
            = mr + b % 256 % 0x80 * 2 ^ (7 * j) := by
          rw [Nat.shiftLeft_eq, Nat.mod_eq_of_lt hsmall,
              lor_eq_add_of_lt _ _ _ hmr]
        rw [hstep]
        have hbound : mr + b % 256 % 0x80 * 2 ^ (7 * j) < 2 ^ (7 * (j + 1)) := by
          calc mr + b % 256 % 0x80 * 2 ^ (7 * j)
              < 2 ^ (7 * j) + 127 * 2 ^ (7 * j) := by
                have : b % 256 % 0x80 * 2 ^ (7 * j) ≤ 127 * 2 ^ (7 * j) :=
                  Nat.mul_le_mul_right _ (by omega)
                omega
            _ = 2 ^ (7 * j + 7) := by rw [pow_add]; ring
            _ = 2 ^ (7 * (j + 1)) := by ring_nf
        have h7 : 7 * j + 7 = 7 * (j + 1) := by ring
        rw [h7]
        have := ih (pos + 1) (mr + b % 256 % 0x80 * 2 ^ (7 * j)) (j + 1)
          (by omega) hbound
        rw [this]
        have harith : pos + 1 + (5 - (j + 1)) = pos + (5 - j) := by omega
        rw [harith]

/-- The ideal decoder inverts `encode_varuint` from any starting
accumulator and shift. -/
theorem varuint_ideal_go_encode :
    ∀ (m pos r s : Nat),
      varuint_ideal_go (encode_varuint m) pos r s
        = some (r + m * 2 ^ s, pos + (encode_varuint m).length) := by
  intro m
  induction m using Nat.strong_induction_on with
  | _ m ih =>
    intro pos r s
    by_cases hm : 0x80 ≤ m
    · rw [encode_varuint_high hm]
      have hbyte : (m % 0x80 + 0x80) % 256 = m % 0x80 + 0x80 := by
        have : m % 0x80 < 0x80 := Nat.mod_lt _ (by norm_num)
        omega
      have hnot : ¬ (m % 0x80 + 0x80) % 256 < 0x80 := by omega
      simp only [varuint_ideal_go, hnot, if_false, List.length_cons]
      have hrec := ih (m / 0x80) (Nat.div_lt_self (by omega) (by norm_num))
        (pos + 1) (r + (m % 0x80 + 0x80) % 256 % 0x80 * 2 ^ s) (s + 7)
      rw [hrec, hbyte]
      have hmod : (m % 0x80 + 0x80) % 0x80 = m % 0x80 := by omega
      rw [hmod]
      have hval : r + m % 0x80 * 2 ^ s + m / 0x80 * 2 ^ (s + 7)
          = r + m * 2 ^ s := by
        have hsum : m % 0x80 + 0x80 * (m / 0x80) = m := Nat.mod_add_div m 0x80
        calc r + m % 0x80 * 2 ^ s + m / 0x80 * 2 ^ (s + 7)
            = r + (m % 0x80 + 0x80 * (m / 0x80)) * 2 ^ s := by rw [pow_add]; ring
          _ = r + m * 2 ^ s := by rw [hsum]
      rw [hval]
      have hlen : pos + 1 + (encode_varuint (m / 0x80)).length
          = pos + ((encode_varuint (m / 0x80)).length + 1) := by omega
      rw [hlen]
    · rw [encode_varuint_low (by omega)]
      have hbyte : m % 256 = m := by omega
      have hlt : m % 256 < 0x80 := by omega
      simp only [varuint_ideal_go, hlt, if_true, List.length_cons,
        List.length_nil]
      rw [hbyte, Nat.mod_eq_of_lt (by omega)]

/-- The encoding of a value below `128 ^ (k + 1)` takes at most `k + 1`
bytes. -/
theorem encode_varuint_length_le :
    ∀ (k m : Nat), m < 128 ^ (k + 1) → (encode_varuint m).length ≤ k + 1 := by
  intro k
  induction k with
  | zero =>
    intro m hm
    rw [encode_varuint_low (by simpa using hm)]
    simp
  | succ k ih =>
    intro m hm
    by_cases hm128 : 0x80 ≤ m
    · rw [encode_varuint_high hm128]
      simp only [List.length_cons]
      have : m / 0x80 < 128 ^ (k + 1) := by
        rw [Nat.div_lt_iff_lt_mul (by norm_num)]
        calc m < 128 ^ (k + 1 + 1) := hm
          _ = 128 ^ (k + 1) * 128 := by rw [pow_succ]
      exact Nat.succ_le_succ (ih _ this)
    · rw [encode_varuint_low (by omega)]
      simp

/-- Dividing by 128 removes exactly seven significant bits. -/
theorem size_div_128 {n : Nat} (h : 0x80 ≤ n) :
    Nat.size n = Nat.size (n / 0x80) + 7 := by
  have h1 : n / 0x80 < 2 ^ Nat.size (n / 0x80) := Nat.lt_size_self _
  have hpow : (2 : Nat) ^ (Nat.size (n / 0x80) + 7)
      = 2 ^ Nat.size (n / 0x80) * 128 := by
    rw [pow_add]
    norm_num
  have hdm := Nat.div_add_mod n 0x80
  have h2 : n < 2 ^ (Nat.size (n / 0x80) + 7) := by
    rw [hpow]
    have hmod : n % 0x80 < 0x80 := Nat.mod_lt _ (by norm_num)
    omega
  have hup : Nat.size n ≤ Nat.size (n / 0x80) + 7 := Nat.size_le.mpr h2
  have hpos : 0 < n / 0x80 := Nat.div_pos h (by norm_num)
  have ht1 : 1 ≤ Nat.size (n / 0x80) := Nat.size_pos.mpr hpos
  have h3 : 2 ^ (Nat.size (n / 0x80) - 1) ≤ n / 0x80 :=
    Nat.lt_size.mp (by omega)
  have hpow2 : (2 : Nat) ^ (Nat.size (n / 0x80) + 6)
      = 2 ^ (Nat.size (n / 0x80) - 1) * 128 := by
    have hexp : Nat.size (n / 0x80) + 6 = Nat.size (n / 0x80) - 1 + 7 := by
      omega
    rw [hexp, pow_add]
    norm_num
  have h4 : 2 ^ (Nat.size (n / 0x80) + 6) ≤ n := by
    rw [hpow2]
    calc 2 ^ (Nat.size (n / 0x80) - 1) * 128 ≤ n / 0x80 * 128 :=
          Nat.mul_le_mul_right _ h3
      _ ≤ n := by omega
  have hlow : Nat.size (n / 0x80) + 6 < Nat.size n := Nat.lt_size.mpr h4
  omega

/-- The length of the LEB128 encoding is one byte per seven significant
bits, rounded up (and one byte for zero); valid for every `Nat`. -/
theorem encode_varuint_length_eq (n : Nat) :
    (encode_varuint n).length
      = if n = 0 then 1 else (bits_required n + 6) / 7 := by
  induction n using Nat.strong_induction_on with
  | _ n ih =>
    by_cases h0 : n = 0
    · subst h0
      simp
    · rw [if_neg h0]
      by_cases h128 : 0x80 ≤ n
      · rw [encode_varuint_high h128]
        simp only [List.length_cons]
        have hdiv0 : n / 0x80 ≠ 0 := by
          have := Nat.div_pos h128 (show 0 < 0x80 by norm_num)
          omega
        have hrec := ih (n / 0x80) (Nat.div_lt_self (by omega) (by norm_num))
        rw [if_neg hdiv0] at hrec
        rw [hrec]
        have hsize := size_div_128 h128
        unfold bits_required at *
        omega
      · rw [encode_varuint_low (by omega)]
        have hs1 : 1 ≤ Nat.size n := Nat.size_pos.mpr (by omega)
        have hs7 : Nat.size n ≤ 7 := Nat.size_le.mpr (by norm_num; omega)
        unfold bits_required
        simp only [List.length_cons, List.length_nil]
        omega

/-- Claim C4: for every `n` below `2 ^ 32`, decoding the bytes produced
by `encode_varuint n` succeeds, yields the value `n`, and consumes
exactly the length of the encoding. -/
theorem varuint_roundtrip (n : Nat) (h : n < 2 ^ 32) :
    decode_varuint (encode_varuint n)
      = some (n, (encode_varuint n).length) := by
  have hchar := decode_varuint_go_eq_ideal (encode_varuint n) 0 0 0
    (by omega) (by norm_num)
  simp only [Nat.mul_zero] at hchar
  have hideal := varuint_ideal_go_encode n 0 0 0
  simp only [pow_zero, Nat.mul_one, Nat.zero_add] at hideal
  have hlen : (encode_varuint n).length ≤ 5 := by
    refine encode_varuint_length_le 4 n (lt_of_lt_of_le h (by norm_num))
  unfold decode_varuint
  rw [hchar, hideal]
  dsimp only
  rw [if_pos (by omega), Nat.mod_eq_of_lt h]

/-- Witness for claim C4 at the concrete input 16384. -/
theorem varuint_roundtrip_witness :
    16384 < 2 ^ 32
      ∧ decode_varuint (encode_varuint 16384)
          = some (16384, (encode_varuint 16384).length) :=
  ⟨by norm_num, varuint_roundtrip 16384 (by norm_num)⟩

/-- Claim C5 counterexample: the five-byte input
`80 80 80 80 10` denotes the value `2 ^ 32` (its decoding shifts a value
bit to position 32), yet `decode_varuint` does not reject it: it
returns the silently truncated value `0` and consumes all five bytes. -/
theorem varuint_overflow_not_rejected :
    varuint_ideal [0x80, 0x80, 0x80, 0x80, 0x10] = some (2 ^ 32, 5)
      ∧ decode_varuint [0x80, 0x80, 0x80, 0x80, 0x10] = some (0, 5)
      ∧ (some ((0 : Nat), (5 : Nat)) : Option (Nat × Nat)) ≠ none := by
  refine ⟨by decide, by decide, by decide⟩

/-- Claim C5 (amended): `decode_varuint` rejects, consuming nothing,
exactly those inputs whose varint does not terminate within five bytes
(a continuation flag on the fifth byte would push the shift past 32
bits, and shorter inputs that end mid-varint are incomplete); an input
that terminates within five bytes is accepted even when the denoted
value has bits at or past position 32, in which case the returned value
is the denoted value reduced modulo `2 ^ 32` (silent truncation). -/
theorem varuint_decode_truncates_mod_32 (data : List Nat) :
    decode_varuint data
      = match varuint_ideal data with
        | some (v, k) => if k ≤ 5 then some (v % 2 ^ 32, k) else none
        | none => none := by
  have hchar := decode_varuint_go_eq_ideal data 0 0 0 (by omega) (by norm_num)
  simp only [Nat.mul_zero, Nat.zero_add] at hchar
  exact hchar

/-- Claim C6: for every `n` below `2 ^ 32`, the encoding length is the
ceiling of `bits_required n / 7` for positive `n`, and one byte for
`n = 0`; in particular the encoding is minimal. -/
theorem varuint_length_minimal (n : Nat) (_h : n < 2 ^ 32) :
    (encode_varuint n).length
      = if n = 0 then 1 else (bits_required n + 6) / 7 :=
  encode_varuint_length_eq n

/-- Witness for claim C6 at the concrete input 129. -/
theorem varuint_length_minimal_witness :
    129 < 2 ^ 32
      ∧ (encode_varuint 129).length
          = if 129 = 0 then 1 else (bits_required 129 + 6) / 7 :=
  ⟨by norm_num, varuint_length_minimal 129 (by norm_num)⟩

/- ### Frame codec: protocol.cpp, message level -/

/-- `parse_message_type` from `server/src/protocol.cpp` (lines 50-59):
the first byte is the message kind; anything above `MSG_AWARENESS = 2`
(or an empty buffer) is the error value `(MessageType)-1`, modelled as
`none`. -/
def parse_message_type (data : List Nat) : Option Nat :=
  match data with
  | [] => none
  | b :: _ => if 2 < b % 256 then none else some (b % 256)

/-- `encode_sync_step1` from `server/src/protocol.cpp` (lines 62-78):
`[kind = 0][varuint length][state vector]`; the `size_t` length is cast
to `uint32_t` before encoding. -/
def encode_sync_step1 (state_vector : List Nat) : List Nat :=
  0 :: encode_varuint (state_vector.length % 2 ^ 32) ++ state_vector

/-- `decode_sync_step1` from `server/src/protocol.cpp` (lines 81-108):
checks the kind byte, decodes the length varuint, and returns the
state-vector slice of the input, or `none` (a null pointer in C) on any
failure. -/
def decode_sync_step1 (data : List Nat) : Option (List Nat) :=
  match data with
  | [] => none
  | b :: rest =>
    if data.length < 2 then none
    else if b % 256 ≠ 0 then none
    else match decode_varuint rest with
      | none => none
      | some (encoded_len, varint_bytes) =>
        let payload_offset := 1 + varint_bytes
        if data.length - payload_offset < encoded_len then none
        else some ((data.drop payload_offset).take encoded_len)

/-- `encode_sync_step2` from `server/src/protocol.cpp` (lines 111-130):
`[kind = 1][varuint length][update]`. -/
def encode_sync_step2 (update : List Nat) : List Nat :=
  1 :: encode_varuint (update.length % 2 ^ 32) ++ update

/-- `decode_sync_step2` from `server/src/protocol.cpp` (lines 133-160):
checks the kind byte, decodes the length varuint, and returns the
update slice of the input, or `none` on any failure. -/
def decode_sync_step2 (data : List Nat) : Option (List Nat) :=
  match data with
  | [] => none
  | b :: rest =>
    if data.length < 2 then none
    else if b % 256 ≠ 1 then none
    else match decode_varuint rest with
      | none => none
      | some (encoded_len, varint_bytes) =>
        let payload_offset := 1 + varint_bytes
        if data.length - payload_offset < encoded_len then none
        else some ((data.drop payload_offset).take encoded_len)

/-- `encode_awareness` from `server/src/protocol.cpp` (lines 164-196):
`[kind = 2][varuint payload length][varuint client id][varuint json
length][json bytes]`.  The C null JSON pointer with length zero is the
empty list here; both `uint32_t` casts of the C code are kept. -/
def encode_awareness (client_id : Nat) (json : List Nat) : List Nat :=
  let cid_buf := encode_varuint (client_id % 2 ^ 32)
  let json_len_buf := encode_varuint (json.length % 2 ^ 32)
  let payload_len := cid_buf.length + json_len_buf.length + json.length
  let payload_len_buf := encode_varuint (payload_len % 2 ^ 32)
  2 :: payload_len_buf ++ cid_buf ++ json_len_buf ++ json

/-- `decode_awareness` from `server/src/protocol.cpp` (lines 198-258):
returns the client id and the JSON payload, with `none` standing for
the removal signal (`jlen = 0`, where the C code hands back a null
pointer). -/
def decode_awareness (data : List Nat) : Option (Nat × Option (List Nat)) :=
  match data with
  | [] => none
  | b :: rest =>
    if data.length < 2 then none
    else if b % 256 ≠ 2 then none
    else match decode_varuint rest with
      | none => none
      | some (payload_len, payload_var) =>
        let payload_offset := 1 + payload_var
        if data.length < payload_offset + payload_len then none
        else
          let payload := (data.drop payload_offset).take payload_len
          match decode_varuint payload with
          | none => none
          | some (cid, cid_bytes) =>
            match decode_varuint (payload.drop cid_bytes) with
            | none => none
            | some (jlen, jlen_bytes) =>
              let rest2 := (payload.drop cid_bytes).drop jlen_bytes
              if rest2.length < jlen then none
              else some (cid, if 0 < jlen then some (rest2.take jlen) else none)

/- ### Peer registry: peer.h / peer.cpp -/

/-- A connected peer, struct `Peer` from `v2/server/include/peer.h`
together with the `client_id`, `awareness_json` and `awareness_len`
fields used by `server.cpp` and initialised in `peers_add`.  The
transport handle `wsi` is an opaque numeric identity; `awareness_json`
is `none` exactly when the C pointer is null, and the C length field
`awareness_len` is the length of the stored list. -/
structure Peer where
  wsi : Nat
  synced : Bool
  client_id : Nat
  awareness_json : Option (List Nat)
  pending_queue : List (List Nat)
deriving Repr, DecidableEq

/-- `peer_queue_message` from `peer.cpp`: append an owned copy of the
bytes at the tail of the pending queue (the C code walks to the tail
and links a fresh node). -/
def peer_queue_message (p : Peer) (data : List Nat) : Peer :=
  { p with pending_queue := p.pending_queue ++ [data] }

/-- `peers_add` from `peer.cpp`: a zero-initialised peer is linked at
the head of `g_peers`. -/
def peers_add (wsi : Nat) (peers : List Peer) : List Peer :=
  { wsi := wsi, synced := false, client_id := 0
    awareness_json := none, pending_queue := [] } :: peers

/-- `peers_find` from `peer.cpp`: first node whose `wsi` matches. -/
def peers_find (wsi : Nat) : List Peer → Option Peer
  | [] => none
  | p :: rest => if p.wsi = wsi then some p else peers_find wsi rest

/-- `peers_remove` from `peer.cpp`: unlink the first node whose `wsi`
matches (the loop breaks after the first hit). -/
def peers_remove (wsi : Nat) : List Peer → List Peer
  | [] => []
  | p :: rest => if p.wsi = wsi then rest else p :: peers_remove wsi rest

/-- In-place mutation through the pointer returned by `peers_find`:
apply `f` to the first node whose `wsi` matches, keep everything else. -/
def peers_update_first (wsi : Nat) (f : Peer → Peer) : List Peer → List Peer
  | [] => []
  | p :: rest =>
    if p.wsi = wsi then f p :: rest else p :: peers_update_first wsi f rest

/- ### Server: server.cpp -/

/-- The loop body of `server_broadcast` from `server/src/server.cpp`
(lines 29-49): enqueue on every peer that is not the excluded sender
and whose synced flag is set. -/
def server_broadcast_go (data : List Nat) (exclude : Nat) : List Peer → List Peer
  | [] => []
  | p :: rest =>
    (if p.wsi ≠ exclude ∧ p.synced then peer_queue_message p data else p)
      :: server_broadcast_go data exclude rest

/-- `server_broadcast` from `server/src/server.cpp` (lines 29-49),
including the early return on an empty buffer. -/
def server_broadcast (data : List Nat) (exclude : Nat) (peers : List Peer) :
    List Peer :=
  if data.length = 0 then peers else server_broadcast_go data exclude peers

/-- The broadcast-to-everyone-else loop that `callback_crdt` inlines
twice: in the `LWS_CALLBACK_CLOSED` case (server.cpp lines 90-98) and
in the AWARENESS branch of `LWS_CALLBACK_RECEIVE` (server.cpp lines
204-212).  Unlike `server_broadcast`, the condition is only
`p->wsi != wsi`: the synced flag is not consulted. -/
def broadcast_all_except (data : List Nat) (exclude : Nat) : List Peer → List Peer
  | [] => []
  | p :: rest =>
    (if p.wsi ≠ exclude then peer_queue_message p data else p)
      :: broadcast_all_except data exclude rest

/-- Interface of the external CRDT engine (the yrs C library, which is
not part of this repository): `applyV1` and `applyV2` stand for
`ytransaction_apply` and `ytransaction_apply_v2` on a write
transaction (`none` is a nonzero error code, in which case the library
leaves the document unchanged), and `stateDiffV1` stands for
`ytransaction_state_diff_v1`, whose state-vector argument `[]` plays
the role of the C null pointer with length zero — the empty state
vector, for which the library returns the full document state. -/
structure CrdtEngine (σ : Type) where
  applyV1 : σ → List Nat → Option σ
  applyV2 : σ → List Nat → Option σ
  stateDiffV1 : σ → List Nat → List Nat

/-- The update formats the document wrapper can hand to the engine. -/
inductive UpdateFormat where
  | v1
  | v2
deriving Repr, DecidableEq

/-- `Document::apply_update` from `v2/server/src/document.cpp` (lines
34-59): reject an empty update, try the V1 format, and on a nonzero
error code retry exactly once with the V2 format.  The first component
is the resulting document (`none` on failure, mirroring `return
false`); the second records which engine applies were attempted, in
order.  The `m_doc` null check is dropped: the server exits at startup
when `Document::init` fails, so a running server always has a live
document. -/
def Document.apply_update {σ : Type} (E : CrdtEngine σ) (doc : σ)
    (update : List Nat) : Option σ × List UpdateFormat :=
  if update.length = 0 then (none, [])
  else
    match E.applyV1 doc update with
    | some d1 => (some d1, [.v1])
    | none =>
      match E.applyV2 doc update with
      | some d2 => (some d2, [.v1, .v2])
      | none => (none, [.v1, .v2])

/-- `Document::get_state_as_update` from `v2/server/src/document.cpp`
(lines 61-84): `ytransaction_state_diff_v1(txn, nullptr, 0, ...)`, the
diff against the null (empty) state vector — the full document
state. -/
def Document.get_state_as_update {σ : Type} (E : CrdtEngine σ) (doc : σ) :
    List Nat :=
  E.stateDiffV1 doc []

/-- `Document::get_state_diff` from `v2/server/src/document.cpp` (lines
110-132): the diff against a client-supplied state vector.  Present in
the code base but never called by `server.cpp`. -/
def Document.get_state_diff {σ : Type} (E : CrdtEngine σ) (doc : σ)
    (client_sv : List Nat) : List Nat :=
  E.stateDiffV1 doc client_sv

/-- The full server state: the authoritative document replica
(`g_document`) and the peer registry (`g_peers`). -/
structure ServerState (σ : Type) where
  doc : σ
  peers : List Peer

/-- The `LWS_CALLBACK_ESTABLISHED` case of `callback_crdt`
(server.cpp lines 54-79): link a fresh unsynced peer, then walk the
registry and enqueue on the new peer one awareness frame per existing
peer with a learned client id and a cached awareness payload. -/
def handle_established {σ : Type} (st : ServerState σ) (wsi : Nat) :
    ServerState σ :=
  let msgs := st.peers.filterMap (fun p =>
    match p.awareness_json with
    | some j =>
      if p.client_id ≠ 0 ∧ 0 < j.length then
        let m := encode_awareness p.client_id j
        if 0 < m.length then some m else none
      else none
    | none => none)
  let newPeer : Peer :=
    { wsi := wsi, synced := false, client_id := 0
      awareness_json := none, pending_queue := [] }
  { st with peers := msgs.foldl peer_queue_message newPeer :: st.peers }

/-- The `LWS_CALLBACK_CLOSED` case of `callback_crdt` (server.cpp lines
81-105): if the departing peer is registered and its client id was
learned, enqueue a synthetic awareness-removal frame (empty JSON) on
every other peer — this loop does not consult the synced flag — then
unlink the peer. -/
def handle_closed {σ : Type} (st : ServerState σ) (wsi : Nat) :
    ServerState σ :=
  let peers1 :=
    match peers_find wsi st.peers with
    | some peer =>
      if peer.client_id ≠ 0 then
        let msg := encode_awareness peer.client_id []
        if 0 < msg.length then broadcast_all_except msg wsi st.peers
        else st.peers
      else st.peers
    | none => st.peers
  { st with peers := peers_remove wsi peers1 }

/-- The `MSG_SYNC_STEP1` branch of `LWS_CALLBACK_RECEIVE` (server.cpp
lines 115-141): the reply payload is `get_state_as_update` — the full
state — and the state vector carried in the inbound frame is never
decoded; the found peer gets the reply enqueued and its synced flag
set. -/
def handle_sync_step1 {σ : Type} (E : CrdtEngine σ) (st : ServerState σ)
    (wsi : Nat) : ServerState σ :=
  let state := Document.get_state_as_update E st.doc
  let msg := encode_sync_step2 state
  { st with
    peers := peers_update_first wsi
      (fun p => { peer_queue_message p msg with synced := true }) st.peers }

/-- The `MSG_SYNC_STEP2` branch of `LWS_CALLBACK_RECEIVE` (server.cpp
lines 142-175): decode the update slice; if it is present and
non-empty and the document apply succeeds, rebroadcast the original
framed bytes to the other synced peers; otherwise log and do
nothing. -/
def handle_sync_step2 {σ : Type} (E : CrdtEngine σ) (st : ServerState σ)
    (wsi : Nat) (data : List Nat) : ServerState σ :=
  match decode_sync_step2 data with
  | some update =>
    if 0 < update.length then
      match (Document.apply_update E st.doc update).1 with
      | some doc1 => { doc := doc1, peers := server_broadcast data wsi st.peers }
      | none => st
    else st
  | none => st

/-- The `MSG_AWARENESS` branch of `LWS_CALLBACK_RECEIVE` (server.cpp
lines 176-219): on a successful decode and a registered sender, learn
the client id, replace the cached awareness payload (null on a removal
signal), and relay the original frame to every other peer — the
broadcast loop does not consult the synced flag. -/
def handle_awareness {σ : Type} (st : ServerState σ) (wsi : Nat)
    (data : List Nat) : ServerState σ :=
  match decode_awareness data with
  | some (cid, js) =>
    match peers_find wsi st.peers with
    | some _ =>
      let peers1 := peers_update_first wsi
        (fun p => { p with client_id := cid, awareness_json := js }) st.peers
      { st with peers := broadcast_all_except data wsi peers1 }
    | none => st
  | none => st

/-- The `LWS_CALLBACK_RECEIVE` case of `callback_crdt` (server.cpp
lines 107-225): dispatch on the parsed message type; empty frames and
unknown kinds are ignored. -/
def handle_receive {σ : Type} (E : CrdtEngine σ) (st : ServerState σ)
    (wsi : Nat) (data : List Nat) : ServerState σ :=
  if data.length = 0 then st
  else
    match parse_message_type data with
    | some 0 => handle_sync_step1 E st wsi
    | some 1 => handle_sync_step2 E st wsi data
    | some 2 => handle_awareness st wsi data
    | _ => st

/- ### Model engine and demo data for concrete evaluations -/

/-- Modelled from the spec: a small concrete instance of the external
engine interface (the yrs library itself is not part of this
repository).  A document is the list of operation identifiers it has
seen; a state vector lists the identifiers its holder has seen; the
diff against a state vector contains exactly the unseen operations, so
the empty state vector yields the full state, as the spec requires of
`encode_diff`.  The V1 apply accepts updates starting with byte 9, the
V2 apply accepts updates starting with byte 7. -/
def modelEngine : CrdtEngine (List Nat) where
  applyV1 := fun d u => if u.head? = some 9 then some (d ++ u) else none
  applyV2 := fun d u => if u.head? = some 7 then some (d ++ u) else none
  stateDiffV1 := fun d sv => d.filter (fun op => ! sv.contains op)

/-- Demo peer: synced, client id 42, cached awareness JSON. -/
def pSender : Peer :=
  { wsi := 1, synced := true, client_id := 42
    awareness_json := some [104, 105], pending_queue := [] }

/-- Demo peer: synced, no client id learned yet. -/
def pSynced : Peer :=
  { wsi := 2, synced := true, client_id := 0
    awareness_json := none, pending_queue := [] }

/-- Demo peer: still awaiting its handshake. -/
def pUnsynced : Peer :=
  { wsi := 3, synced := false, client_id := 0
    awareness_json := none, pending_queue := [] }

/- ### Frame-level helper lemmas -/

/-- A SYNC_STEP2 frame for a short update spelled out byte by byte. -/
theorem encode_sync_step2_small {update : List Nat}
    (h : update.length < 0x80) :
    encode_sync_step2 update = 1 :: update.length :: update := by
  unfold encode_sync_step2
  rw [Nat.mod_eq_of_lt (lt_trans h (by norm_num)), encode_varuint_low h]
  rfl

/-- An AWARENESS frame is never empty. -/
theorem encode_awareness_length_pos (cid : Nat) (json : List Nat) :
    0 < (encode_awareness cid json).length := by
  unfold encode_awareness
  simp

/- ### Claim C3: broadcast exclusion -/

/-- Claim C3: a SYNC_STEP2 broadcast of a non-empty frame triggered by
peer `x` appends the bytes exactly once to the queue of every
registered peer other than `x` whose synced flag is true, and leaves
the queue of `x` and of every unsynced peer untouched. -/
theorem broadcast_exclusion (data : List Nat) (x : Nat) (peers : List Peer)
    (hdata : data ≠ []) (i : Nat) :
    ((server_broadcast data x peers).get? i).map Peer.pending_queue
      = (peers.get? i).map (fun p =>
          if p.wsi ≠ x ∧ p.synced then p.pending_queue ++ [data]
          else p.pending_queue) := by
  unfold server_broadcast
  rw [if_neg (by simpa using hdata)]
  induction peers generalizing i with
  | nil => rfl
  | cons p rest ih =>
    cases i with
    | zero =>
      simp only [server_broadcast_go, List.get?]
      by_cases hc : p.wsi ≠ x ∧ p.synced
      · rw [if_pos hc]
        simp [peer_queue_message, hc]
      · rw [if_neg hc]
        simp [hc]
    | succ n =>
      simpa [server_broadcast_go, List.get?] using ih n

/-- Witness for claim C3: with sender 1, a synced peer 2 and an
unsynced peer 3, the frame lands exactly on peer 2. -/
theorem broadcast_exclusion_witness :
    ([1, 0] : List Nat) ≠ []
      ∧ ((server_broadcast [1, 0] 1 [pSender, pSynced, pUnsynced]).get? 1).map
            Peer.pending_queue
          = ([pSender, pSynced, pUnsynced].get? 1).map (fun p =>
              if p.wsi ≠ 1 ∧ p.synced then p.pending_queue ++ [[1, 0]]
              else p.pending_queue) :=
  ⟨by decide, broadcast_exclusion [1, 0] 1 [pSender, pSynced, pUnsynced]
    (by decide) 1⟩


/- ### Claim C2: SYNC_STEP2 relay gated on decode and apply -/

/-- Claim C2: for an inbound SYNC_STEP2 frame, the server hands the
exact received bytes to `server_broadcast` (and installs the new
document) precisely when the frame decodes and the document apply
succeeds; when the decode or the apply fails, the state — every peer
and every queue included — is unchanged, so no bytes are enqueued
anywhere and the sender stays registered.  (An update slice that
decodes to zero bytes falls on the failure side, because
`apply_update` rejects empty updates.) -/
theorem sync_step2_relay_iff {σ : Type} (E : CrdtEngine σ)
    (st : ServerState σ) (wsi : Nat) (data : List Nat)
    (hkind : parse_message_type data = some 1) :
    (∃ update doc1,
        decode_sync_step2 data = some update
          ∧ (Document.apply_update E st.doc update).1 = some doc1
          ∧ handle_receive E st wsi data
              = { doc := doc1, peers := server_broadcast data wsi st.peers })
      ∨ ((∀ update, decode_sync_step2 data = some update →
            (Document.apply_update E st.doc update).1 = none)
          ∧ handle_receive E st wsi data = st) := by
  have hne : data.length ≠ 0 := by
    cases data with
    | nil => simp [parse_message_type] at hkind
    | cons b rest => simp
  have hstep : handle_receive E st wsi data = handle_sync_step2 E st wsi data := by
    unfold handle_receive
    rw [if_neg hne, hkind]
  rw [hstep]
  rcases hdec : decode_sync_step2 data with _ | update
  · right
    constructor
    · intro u hu
      exact absurd hu (by simp)
    · simp [handle_sync_step2, hdec]
  · by_cases hlen : 0 < update.length
    · rcases happ : (Document.apply_update E st.doc update).1 with _ | doc1
      · right
        constructor
        · intro u hu
          cases hu
          exact happ
        · simp [handle_sync_step2, hdec, hlen, happ]
      · left
        exact ⟨update, doc1, rfl, happ, by
          simp [handle_sync_step2, hdec, hlen, happ]⟩
    · right
      constructor
      · intro u hu
        cases hu
        have h0 : update = [] := List.eq_nil_of_length_eq_zero (by omega)
        simp [Document.apply_update, h0]
      · simp [handle_sync_step2, hdec, hlen]

/-- Witness for claim C2: the frame `01 01 09` carries the one-byte
update `09`, which the model engine accepts in the V1 format. -/
theorem sync_step2_relay_iff_witness :
    parse_message_type [1, 1, 9] = some 1
      ∧ ((∃ update doc1,
            decode_sync_step2 [1, 1, 9] = some update
              ∧ (Document.apply_update modelEngine ([] : List Nat) update).1
                  = some doc1
              ∧ handle_receive modelEngine
                    { doc := [], peers := [pSender, pUnsynced] } 1 [1, 1, 9]
                  = { doc := doc1,
                      peers := server_broadcast [1, 1, 9] 1 [pSender, pUnsynced] })
          ∨ ((∀ update, decode_sync_step2 [1, 1, 9] = some update →
                (Document.apply_update modelEngine ([] : List Nat) update).1
                  = none)
              ∧ handle_receive modelEngine
                    { doc := [], peers := [pSender, pUnsynced] } 1 [1, 1, 9]
                  = { doc := [], peers := [pSender, pUnsynced] })) :=
  ⟨by decide, sync_step2_relay_iff modelEngine
    { doc := [], peers := [pSender, pUnsynced] } 1 [1, 1, 9] (by decide)⟩

/- ### Claim C1: SYNC_STEP1 reply -/

/-- Claim C1 counterexample: the document holds operation 5 and the
inbound SYNC_STEP1 frame `00 01 05` carries the non-empty state vector
`[5]`, which already covers the whole document, so the diff against it
is empty; yet the enqueued SYNC_STEP2 reply carries the full state
`[5]` — the state vector in the payload is ignored, and a non-empty
state vector still yields the full document state, contradicting the
claim. -/
theorem sync_step1_ignores_state_vector :
    decode_sync_step1 [0, 1, 5] = some [5]
      ∧ Document.get_state_diff modelEngine [5] [5] = []
      ∧ (handle_receive modelEngine
            { doc := [5],
              peers := [{ wsi := 7, synced := false, client_id := 0
                          awareness_json := none, pending_queue := [] }] }
            7 [0, 1, 5]).peers
          = [{ wsi := 7, synced := true, client_id := 0
               awareness_json := none,
               pending_queue := [encode_sync_step2 [5]] }]
      ∧ encode_sync_step2 [5] ≠ encode_sync_step2 [] := by
  refine ⟨by decide, by decide, ?_, ?_⟩
  · rfl
  · rw [encode_sync_step2_small (by decide), encode_sync_step2_small (by decide)]
    decide

/-- Claim C1 (amended): when a connected peer sends a SYNC_STEP1 frame,
the server enqueues on that peer a SYNC_STEP2 frame whose payload is
always the full document state (`get_state_as_update`, the diff against
the empty state vector), regardless of the state vector carried in the
SYNC_STEP1 payload — which is never decoded — and sets the peer's
synced flag to true; no other peer and nothing else changes. -/
theorem sync_step1_replies_full_state {σ : Type} (E : CrdtEngine σ)
    (st : ServerState σ) (wsi : Nat) (data : List Nat)
    (hkind : parse_message_type data = some 0) :
    handle_receive E st wsi data
      = { doc := st.doc,
          peers := peers_update_first wsi
            (fun p =>
              { p with
                synced := true,
                pending_queue := p.pending_queue
                  ++ [encode_sync_step2 (Document.get_state_as_update E st.doc)] })
            st.peers } := by
  have hne : data.length ≠ 0 := by
    cases data with
    | nil => simp [parse_message_type] at hkind
    | cons b rest => simp
  unfold handle_receive
  rw [if_neg hne, hkind]
  rfl

/-- Witness for the amended claim C1 at a concrete input: the reply to
`00 01 05` is the full state of the one-op document, enqueued on the
requesting peer whose synced flag becomes true. -/
theorem sync_step1_replies_full_state_witness :
    parse_message_type [0, 1, 5] = some 0
      ∧ handle_receive modelEngine { doc := [5], peers := [pUnsynced] } 3 [0, 1, 5]
          = { doc := [5],
              peers := peers_update_first 3
                (fun p =>
                  { p with
                    synced := true,
                    pending_queue := p.pending_queue
                      ++ [encode_sync_step2
                            (Document.get_state_as_update modelEngine [5])] })
                [pUnsynced] } :=
  ⟨by decide, sync_step1_replies_full_state modelEngine
    { doc := [5], peers := [pUnsynced] } 3 [0, 1, 5] (by decide)⟩

/- ### Claim C7: V1-then-V2 apply fallback -/

/-- Claim C7: for a non-empty update, `apply_update` succeeds exactly
when the V1 apply succeeds or the V1 apply fails and the single V2
fallback succeeds; an error surfaces only after both formats were
attempted, and the V2 format is attempted at most once. -/
theorem apply_update_fallback {σ : Type} (E : CrdtEngine σ) (doc : σ)
    (update : List Nat) (hne : update ≠ []) :
    ((Document.apply_update E doc update).1.isSome
        ↔ (E.applyV1 doc update).isSome
            ∨ (E.applyV1 doc update = none ∧ (E.applyV2 doc update).isSome))
      ∧ (Document.apply_update E doc update).2.count UpdateFormat.v2 ≤ 1
      ∧ ((Document.apply_update E doc update).1 = none
          → (Document.apply_update E doc update).2
              = [UpdateFormat.v1, UpdateFormat.v2]) := by
  have hlen : ¬ update.length = 0 := by simpa using hne
  unfold Document.apply_update
  rw [if_neg hlen]
  rcases h1 : E.applyV1 doc update with _ | d1
  · rcases h2 : E.applyV2 doc update with _ | d2
    · dsimp only
      exact ⟨by simp, by decide, fun _ => rfl⟩
    · dsimp only
      exact ⟨by simp, by decide, by simp⟩
  · dsimp only
    exact ⟨by simp, by decide, by simp⟩

/-- Witness for claim C7: the model engine rejects `[7]` in the V1
format and accepts it in the V2 fallback. -/
theorem apply_update_fallback_witness :
    ([7] : List Nat) ≠ []
      ∧ (((Document.apply_update modelEngine ([] : List Nat) [7]).1.isSome
            ↔ (modelEngine.applyV1 [] [7]).isSome
                ∨ (modelEngine.applyV1 [] [7] = none
                    ∧ (modelEngine.applyV2 [] [7]).isSome))
          ∧ (Document.apply_update modelEngine ([] : List Nat) [7]).2.count
                UpdateFormat.v2 ≤ 1
          ∧ ((Document.apply_update modelEngine ([] : List Nat) [7]).1 = none
              → (Document.apply_update modelEngine ([] : List Nat) [7]).2
                  = [UpdateFormat.v1, UpdateFormat.v2])) :=
  ⟨by decide, apply_update_fallback modelEngine [] [7] (by decide)⟩

/- ### Claim C8: synthetic awareness removal on close -/

/-- On a list whose members all differ from the excluded identity, the
unsynced broadcast loop enqueues on every member. -/
theorem broadcast_all_except_of_not_mem (m : List Nat) (w : Nat) :
    ∀ l : List Peer, (∀ q ∈ l, q.wsi ≠ w) →
      broadcast_all_except m w l = l.map (fun p => peer_queue_message p m) := by
  intro l
  induction l with
  | nil => intro _; rfl
  | cons p rest ih =>
    intro hall
    simp only [broadcast_all_except, List.map_cons]
    rw [if_pos (hall p (by simp)), ih (fun q hq => hall q (by simp [hq]))]

/-- A filter by a condition every member satisfies keeps the list. -/
theorem filter_ne_of_not_mem (w : Nat) :
    ∀ l : List Peer, (∀ q ∈ l, q.wsi ≠ w) →
      l.filter (fun p => p.wsi != w) = l := by
  intro l
  induction l with
  | nil => intro _; rfl
  | cons p rest ih =>
    intro hall
    have hp : p.wsi ≠ w := hall p (List.mem_cons_self p rest)
    rw [List.filter_cons_of_pos (by simpa using hp),
        ih (fun q hq => hall q (List.mem_cons_of_mem p hq))]

/-- Removing the closing peer from the result of the unsynced broadcast
loop: with pairwise distinct transport handles, the surviving registry
is exactly the original one minus the closing peer, each survivor with
the frame appended once. -/
theorem peers_remove_broadcast_all (m : List Nat) (w : Nat) :
    ∀ l : List Peer, (l.map Peer.wsi).Nodup →
      peers_remove w (broadcast_all_except m w l)
        = (l.filter (fun p => p.wsi != w)).map
            (fun p => peer_queue_message p m) := by
  intro l
  induction l with
  | nil => intro _; rfl
  | cons p rest ih =>
    intro hnd
    simp only [List.map_cons, List.nodup_cons] at hnd
    obtain ⟨hpnot, hndrest⟩ := hnd
    by_cases hw : p.wsi = w
    · have hall : ∀ q ∈ rest, q.wsi ≠ w := by
        intro q hq heq
        exact hpnot (hw ▸ heq ▸ List.mem_map_of_mem Peer.wsi hq)
      have hb : broadcast_all_except m w (p :: rest)
          = p :: broadcast_all_except m w rest := by
        simp only [broadcast_all_except]
        rw [if_neg (by simp [hw])]
      have hr : peers_remove w (p :: broadcast_all_except m w rest)
          = broadcast_all_except m w rest := by
        simp only [peers_remove]
        rw [if_pos hw]
      rw [hb, hr, List.filter_cons_of_neg (by simp [hw]),
          broadcast_all_except_of_not_mem m w rest hall,
          filter_ne_of_not_mem w rest hall]
    · have hb : broadcast_all_except m w (p :: rest)
          = peer_queue_message p m :: broadcast_all_except m w rest := by
        simp only [broadcast_all_except]
        rw [if_pos hw]
      have hr : peers_remove w
            (peer_queue_message p m :: broadcast_all_except m w rest)
          = peer_queue_message p m
              :: peers_remove w (broadcast_all_except m w rest) := by
        dsimp only [peers_remove, peer_queue_message]
        rw [if_neg hw]
      rw [hb, hr, ih hndrest, List.filter_cons_of_pos (by simpa using hw),
          List.map_cons]

/-- Claim C8: when a registered peer with a learned client id closes,
every surviving peer — in particular every other synced peer — gets
exactly one synthetic AWARENESS removal frame (that client id, empty
JSON) appended to its queue; when the client id was never learned, the
peer is unlinked and nothing is enqueued anywhere. -/
theorem closed_awareness_removal {σ : Type} (st : ServerState σ) (wsi : Nat)
    (peer : Peer) (hfind : peers_find wsi st.peers = some peer)
    (hnd : (st.peers.map Peer.wsi).Nodup) :
    (peer.client_id ≠ 0 →
        (handle_closed st wsi).peers
          = (st.peers.filter (fun p => p.wsi != wsi)).map
              (fun p => peer_queue_message p (encode_awareness peer.client_id [])))
      ∧ (peer.client_id = 0 →
          (handle_closed st wsi).peers = peers_remove wsi st.peers) := by
  constructor
  · intro hcid
    unfold handle_closed
    rw [hfind]
    dsimp only
    rw [if_pos hcid, if_pos (encode_awareness_length_pos _ _)]
    exact peers_remove_broadcast_all _ _ st.peers hnd
  · intro hcid
    unfold handle_closed
    rw [hfind]
    dsimp only
    rw [if_neg (fun h => h hcid)]

/-- Witness for claim C8: peer 1 (client id 42) closes; peers 2 and 3
each receive one removal frame. -/
theorem closed_awareness_removal_witness :
    peers_find 1 [pSender, pSynced, pUnsynced] = some pSender
      ∧ ([pSender, pSynced, pUnsynced].map Peer.wsi).Nodup
      ∧ pSender.client_id ≠ 0
      ∧ (handle_closed
            { doc := (0 : Nat), peers := [pSender, pSynced, pUnsynced] } 1).peers
          = ([pSender, pSynced, pUnsynced].filter (fun p => p.wsi != 1)).map
              (fun p =>
                peer_queue_message p (encode_awareness pSender.client_id [])) :=
  ⟨by decide, by decide, by decide,
    (closed_awareness_removal
        { doc := (0 : Nat), peers := [pSender, pSynced, pUnsynced] } 1 pSender
        (by decide) (by decide)).1 (by decide)⟩

/- ### Claim C9: awareness priming of a new peer -/

/-- Folding the enqueue operation over a message list appends the whole
list to the queue. -/
theorem foldl_peer_queue_message :
    ∀ (msgs : List (List Nat)) (q : Peer),
      msgs.foldl peer_queue_message q
        = { q with pending_queue := q.pending_queue ++ msgs } := by
  intro msgs
  induction msgs with
  | nil =>
    intro q
    cases q
    simp [peer_queue_message]
  | cons m rest ih =>
    intro q
    rw [List.foldl_cons, ih]
    simp [peer_queue_message]

/-- Claim C9: accepting a new peer enqueues, on the new peer only, one
AWARENESS frame per already-registered peer whose client id is learned
and whose cached awareness JSON is present (non-empty), no frame for
peers lacking either, and leaves every existing peer untouched. -/
theorem established_primes_awareness {σ : Type} (st : ServerState σ)
    (wsi : Nat) :
    (handle_established st wsi).peers
      = { wsi := wsi, synced := false, client_id := 0, awareness_json := none,
          pending_queue := st.peers.filterMap (fun p =>
            match p.awareness_json with
            | some j =>
              if p.client_id ≠ 0 ∧ 0 < j.length
              then some (encode_awareness p.client_id j) else none
            | none => none) } :: st.peers := by
  unfold handle_established
  dsimp only
  rw [foldl_peer_queue_message]
  have hfm : (fun p : Peer =>
      match p.awareness_json with
      | some j =>
        if p.client_id ≠ 0 ∧ 0 < j.length then
          let m := encode_awareness p.client_id j
          if 0 < m.length then some m else none
        else none
      | none => none)
      = (fun p : Peer =>
      match p.awareness_json with
      | some j =>
        if p.client_id ≠ 0 ∧ 0 < j.length
        then some (encode_awareness p.client_id j) else none
      | none => none) := by
    funext p
    cases hj : p.awareness_json with
    | none => rfl
    | some j =>
      dsimp only
      by_cases hc : p.client_id ≠ 0 ∧ 0 < j.length
      · rw [if_pos hc, if_pos hc, if_pos (encode_awareness_length_pos _ _)]
      · rw [if_neg hc, if_neg hc]
  rw [hfm]
  simp

/- ### Claim C10: awareness relay ignores the synced flag -/

/-- A frame that `decode_awareness` accepts has kind byte 2, so the
dispatcher routes it to the AWARENESS branch. -/
theorem parse_of_decode_awareness {data : List Nat}
    {x : Nat × Option (List Nat)} (h : decode_awareness data = some x) :
    parse_message_type data = some 2 := by
  cases data with
  | nil => exact absurd h (by simp [decode_awareness])
  | cons b rest =>
    unfold decode_awareness at h
    dsimp only at h
    by_cases hlen : (b :: rest).length < 2
    · rw [if_pos hlen] at h
      exact absurd h (by simp)
    · rw [if_neg hlen] at h
      by_cases hb : b % 256 ≠ 2
      · rw [if_pos hb] at h
        exact absurd h (by simp)
      · push_neg at hb
        simp [parse_message_type, hb]

/-- Queue contents after the unsynced broadcast loop, position by
position: every peer other than the excluded one gains the frame,
whatever its synced flag. -/
theorem broadcast_all_except_get (m : List Nat) (w : Nat) :
    ∀ (l : List Peer) (i : Nat),
      ((broadcast_all_except m w l).get? i).map Peer.pending_queue
        = (l.get? i).map (fun p =>
            if p.wsi ≠ w then p.pending_queue ++ [m] else p.pending_queue) := by
  intro l
  induction l with
  | nil => intro i; rfl
  | cons p rest ih =>
    intro i
    cases i with
    | zero =>
      simp only [broadcast_all_except, List.get?]
      by_cases hw : p.wsi ≠ w
      · rw [if_pos hw]
        simp [peer_queue_message, hw]
      · push_neg at hw
        rw [if_neg (by simp [hw])]
        simp [hw]
    | succ n =>
      simpa [broadcast_all_except, List.get?] using ih n

/-- Queue contents after the AWARENESS receive path: learning the
client id and replacing the cached JSON on the sender leaves every
queue and every identity in place, and the subsequent unsynced
broadcast loop appends the frame to every other peer. -/
theorem bae_update_first_get (data : List Nat) (w cid : Nat)
    (js : Option (List Nat)) :
    ∀ (l : List Peer) (i : Nat),
      ((broadcast_all_except data w
          (peers_update_first w
            (fun p => { p with client_id := cid, awareness_json := js })
            l)).get? i).map Peer.pending_queue
        = (l.get? i).map (fun p =>
            if p.wsi ≠ w then p.pending_queue ++ [data]
            else p.pending_queue) := by
  intro l
  induction l with
  | nil => intro i; rfl
  | cons p rest ih =>
    intro i
    by_cases hw : p.wsi = w
    · have hu : peers_update_first w
          (fun p => { p with client_id := cid, awareness_json := js })
          (p :: rest)
          = { p with client_id := cid, awareness_json := js } :: rest := by
        dsimp only [peers_update_first]
        rw [if_pos hw]
      rw [hu]
      cases i with
      | zero =>
        simp only [broadcast_all_except, List.get?]
        rw [if_neg (by simp [hw])]
        simp [hw]
      | succ n =>
        simpa [broadcast_all_except, List.get?] using
          broadcast_all_except_get data w rest n
    · have hu : peers_update_first w
          (fun p => { p with client_id := cid, awareness_json := js })
          (p :: rest)
          = p :: peers_update_first w
              (fun p => { p with client_id := cid, awareness_json := js })
              rest := by
        dsimp only [peers_update_first]
        rw [if_neg hw]
      rw [hu]
      cases i with
      | zero =>
        simp only [broadcast_all_except, List.get?]
        rw [if_pos hw]
        simp [peer_queue_message, hw]
      | succ n =>
        simpa [broadcast_all_except, List.get?] using ih n

/-- Claim C10: every AWARENESS frame the server relays — an inbound
awareness update that decodes from a registered sender, and the
synthetic removal sent when a peer with a learned client id closes —
is enqueued on every other registered peer whatever that peer's synced
flag: the queue equations below carry no synced condition, unlike the
SYNC_STEP2 broadcast, so a peer still awaiting its handshake receives
awareness frames. -/
theorem awareness_relay_ignores_synced {σ : Type} (E : CrdtEngine σ)
    (st : ServerState σ) (wsi : Nat) (data : List Nat) (cid : Nat)
    (js : Option (List Nat)) (peer : Peer) (i : Nat) :
    (decode_awareness data = some (cid, js) →
        peers_find wsi st.peers = some peer →
        ((handle_receive E st wsi data).peers.get? i).map Peer.pending_queue
          = (st.peers.get? i).map (fun p =>
              if p.wsi ≠ wsi then p.pending_queue ++ [data]
              else p.pending_queue))
      ∧ (peers_find wsi st.peers = some peer → peer.client_id ≠ 0 →
          (handle_closed st wsi).peers
              = peers_remove wsi
                  (broadcast_all_except (encode_awareness peer.client_id [])
                    wsi st.peers)
            ∧ ((broadcast_all_except (encode_awareness peer.client_id [])
                  wsi st.peers).get? i).map Peer.pending_queue
                = (st.peers.get? i).map (fun p =>
                    if p.wsi ≠ wsi
                    then p.pending_queue ++ [encode_awareness peer.client_id []]
                    else p.pending_queue)) := by
  constructor
  · intro hdec hfind
    have hkind := parse_of_decode_awareness hdec
    have hne : data.length ≠ 0 := by
      cases data with
      | nil => simp [parse_message_type] at hkind
      | cons b rest => simp
    have hstep : handle_receive E st wsi data = handle_awareness st wsi data := by
      unfold handle_receive
      rw [if_neg hne, hkind]
    rw [hstep]
    unfold handle_awareness
    rw [hdec, hfind]
    exact bae_update_first_get data wsi cid js st.peers i
  · intro hfind hcid
    constructor
    · unfold handle_closed
      rw [hfind]
      dsimp only
      rw [if_pos hcid, if_pos (encode_awareness_length_pos _ _)]
    · exact broadcast_all_except_get _ _ st.peers i

/-- Witness for claim C10: the frame `02 04 2A 02 68 69` (client id 42,
JSON `hi`) from peer 1 reaches the unsynced peer 3, and so does the
synthetic removal when peer 1 closes. -/
theorem awareness_relay_ignores_synced_witness :
    decode_awareness [2, 4, 42, 2, 104, 105] = some (42, some [104, 105])
      ∧ peers_find 1 [pSender, pUnsynced] = some pSender
      ∧ pSender.client_id ≠ 0
      ∧ ((handle_receive modelEngine
            { doc := ([] : List Nat), peers := [pSender, pUnsynced] } 1
            [2, 4, 42, 2, 104, 105]).peers.get? 1).map Peer.pending_queue
          = ([pSender, pUnsynced].get? 1).map (fun p =>
              if p.wsi ≠ 1 then p.pending_queue ++ [[2, 4, 42, 2, 104, 105]]
              else p.pending_queue)
      ∧ ((handle_closed
              { doc := ([] : List Nat), peers := [pSender, pUnsynced] } 1).peers
            = peers_remove 1
                (broadcast_all_except (encode_awareness pSender.client_id [])
                  1 [pSender, pUnsynced])
          ∧ ((broadcast_all_except (encode_awareness pSender.client_id [])
                1 [pSender, pUnsynced]).get? 1).map Peer.pending_queue
              = ([pSender, pUnsynced].get? 1).map (fun p =>
                  if p.wsi ≠ 1
                  then p.pending_queue ++ [encode_awareness pSender.client_id []]
                  else p.pending_queue)) :=
  ⟨by decide, by decide, by decide,
    (awareness_relay_ignores_synced modelEngine
        { doc := ([] : List Nat), peers := [pSender, pUnsynced] } 1
        [2, 4, 42, 2, 104, 105] 42 (some [104, 105]) pSender 1).1
      (by decide) (by decide),
    (awareness_relay_ignores_synced modelEngine
        { doc := ([] : List Nat), peers := [pSender, pUnsynced] } 1
        [2, 4, 42, 2, 104, 105] 42 (some [104, 105]) pSender 1).2
      (by decide) (by decide)⟩
